import Mathlib

/-!
Verification of the Discord message-pipeline module of Antigravity-Manager
(`src-tauri/src/modules/discord/{events,commands,db,mod}.rs`).

Texts are embedded as `List Char` (the character sequence of a Rust `String`;
all inputs appearing in the claims are ASCII, where char positions and byte
positions coincide — except where byte-level behaviour itself is under test,
which is modelled separately via `Char.utf8Size`).
-/

namespace Antigravity

/-- `\s` of the regex crate restricted to the ASCII whitespace characters. -/
def isSpaceChar (c : Char) : Bool :=
  c = ' ' || c = '\t' || c = '\n' || c = '\r' || c = '\x0b' || c = '\x0c'

/-- Word character as in the regex `\b` word-boundary rule (`[0-9A-Za-z_]`). -/
def isWordChar (c : Char) : Bool := c.isAlphanum || c = '_'

/-- Case-insensitive character equality, modelling the `(?i)` regex flag. -/
def ciEq (a b : Char) : Bool := a.toLower = b.toLower

/-- Length of the maximal whitespace run at the head of a text. -/
def wsLen : List Char → Nat
  | [] => 0
  | c :: rest => if isSpaceChar c then wsLen rest + 1 else 0

/-- Case-insensitive test that `pat` occurs at the head of `text`. -/
def ciStartsWith : List Char → List Char → Bool
  | [], _ => true
  | _ :: _, [] => false
  | p :: ps, c :: cs => ciEq p c && ciStartsWith ps cs

/-- The `\b` word-boundary test at the position immediately after a match of
`pat` at the head of `text`: the boundary holds iff exactly one of the
character before the position and the character after it is a word character
(absent characters count as non-word). -/
def wordBoundaryAfter (pat text : List Char) : Bool :=
  (match (text.take pat.length).getLast? with
   | some c => isWordChar c
   | none => false)
  !=
  (match (text.drop pat.length).head? with
   | some c => isWordChar c
   | none => false)

/-- One replacement regex `(?i){escaped pattern}\b` (events.rs 468-477) fires
at the head of `text` iff the pattern matches case-insensitively and a word
boundary follows. -/
def matchAt (pat text : List Char) : Bool :=
  ciStartsWith pat text && wordBoundaryAfter pat text

/-- Left-to-right scan of `Regex::replace_all`: while `skip > 0` the scanner
is still inside the text consumed by the previous match; at `skip = 0` it
tests for a match at the current position, emitting the replacement and
skipping the matched characters (never rescanning replacement text). -/
def replaceAllGo (pat repl : List Char) : List Char → Nat → List Char
  | [], _ => []
  | _ :: rest, Nat.succ skip => replaceAllGo pat repl rest skip
  | c :: rest, 0 =>
    if matchAt pat (c :: rest) then
      repl ++ replaceAllGo pat repl rest (pat.length - 1)
    else
      c :: replaceAllGo pat repl rest 0

/-- `Regex::replace_all` for the literal-pattern-plus-`\b` regexes built in
events.rs: replace each non-overlapping match, leftmost first. -/
def replaceAll (pat repl : List Char) (text : List Char) : List Char :=
  if pat.isEmpty then text else replaceAllGo pat repl text 0

/-- A mention replacement entry (`Replacement` in mod.rs): display pattern
(`"@Name"` / `"#name"`) and platform mention token. -/
structure Replacement where
  pattern : List Char
  value : List Char
deriving DecidableEq, Repr

/-- The mention-substitution loop (events.rs 459-478 and 509-515): apply each
replacement in stored order as a case-insensitive global replace with a
trailing word boundary. -/
def applyReplacements (rs : List Replacement) (text : List Char) : List Char :=
  rs.foldl (fun t r => replaceAll r.pattern r.value t) text

/-- Insert into a list kept sorted by descending pattern length (stable:
inserted element goes after existing entries of equal length). -/
def insertDesc (x : Replacement) : List Replacement → List Replacement
  | [] => [x]
  | y :: ys =>
    if y.pattern.length < x.pattern.length then x :: y :: ys
    else y :: insertDesc x ys

/-- Model of `new_replacements.sort_by(|a, b| b.pattern.len().cmp(&a.pattern.len()))`
(commands.rs 93 / 169, events.rs 454): stable sort by descending pattern
length. -/
def sortDescLen (l : List Replacement) : List Replacement :=
  l.foldl (fun acc x => insertDesc x acc) []

/-- The background cache rebuild (commands.rs 47-97): gather entries from
roles, channels and members, then sort by descending pattern length before
storing the guild cache. -/
def rebuildCache (entries : List Replacement) : List Replacement :=
  sortDescLen entries

/-- Exact-substring test (`str::contains`). -/
def containsSub (n : List Char) : List Char → Bool
  | [] => n.isEmpty
  | c :: rest => (n.isPrefixOf (c :: rest) : Bool) || containsSub n rest

theorem mem_insertDesc {z x : Replacement} {l : List Replacement}
    (h : z ∈ insertDesc x l) : z = x ∨ z ∈ l := by
  induction l with
  | nil => simpa [insertDesc] using h
  | cons y ys ih =>
    by_cases hc : y.pattern.length < x.pattern.length
    · simp [insertDesc, hc] at h
      rcases h with h | h | h
      · exact Or.inl h
      · exact Or.inr (by simp [h])
      · exact Or.inr (by simp [h])
    · simp [insertDesc, hc] at h
      rcases h with h | h
      · exact Or.inr (by simp [h])
      · rcases ih h with h' | h'
        · exact Or.inl h'
        · exact Or.inr (by simp [h'])

theorem pairwise_insertDesc {x : Replacement} {l : List Replacement}
    (h : List.Pairwise (fun a b => b.pattern.length ≤ a.pattern.length) l) :
    List.Pairwise (fun a b => b.pattern.length ≤ a.pattern.length) (insertDesc x l) := by
  induction l with
  | nil => simp [insertDesc]
  | cons y ys ih =>
    rcases List.pairwise_cons.mp h with ⟨hy, hys⟩
    by_cases hc : y.pattern.length < x.pattern.length
    · simp only [insertDesc, if_pos hc]
      refine List.pairwise_cons.mpr ⟨?_, h⟩
      intro z hz
      rcases List.mem_cons.mp hz with rfl | hz
      · omega
      · exact le_trans (hy z hz) (le_of_lt hc)
    · simp only [insertDesc, if_neg hc]
      refine List.pairwise_cons.mpr ⟨?_, ih hys⟩
      intro z hz
      rcases mem_insertDesc hz with rfl | hz
      · omega
      · exact hy z hz

theorem pairwise_sortDescLen_aux (l : List Replacement) :
    ∀ acc, List.Pairwise (fun a b => b.pattern.length ≤ a.pattern.length) acc →
      List.Pairwise (fun a b => b.pattern.length ≤ a.pattern.length)
        (l.foldl (fun a x => insertDesc x a) acc) := by
  induction l with
  | nil => intro acc h; simpa using h
  | cons x xs ih =>
    intro acc h
    exact ih (insertDesc x acc) (pairwise_insertDesc h)

/-- The two-alias member snapshot of the spec's longest-match example. -/
def johnEntries : List Replacement :=
  [⟨"@John".data, "<@200>".data⟩, ⟨"@Johnny".data, "<@100>".data⟩]

/-- C1: every rebuilt guild mention cache is sorted by descending pattern
length, and applying the stored replacements in order to a text containing
the longer cached pattern `"@Johnny"` (with `"@John"` also cached)
substitutes the longer pattern's token `<@100>` and never the shorter
pattern's token `<@200>`. -/
theorem c1_cache_sorted_longest_wins :
    (∀ entries, List.Pairwise (fun a b => b.pattern.length ≤ a.pattern.length)
        (rebuildCache entries))
    ∧ applyReplacements (rebuildCache johnEntries) "hello @Johnny".data
        = "hello <@100>".data
    ∧ containsSub "<@200>".data
        (applyReplacements (rebuildCache johnEntries) "hello @Johnny".data) = false := by
  refine ⟨fun entries => pairwise_sortDescLen_aux entries [] (by simp), ?_, ?_⟩
  · decide
  · decide

/-- C8: with only `"@John"` cached, mention substitution leaves
`"@Johnathan"` unchanged, and in general the replacement regex never fires
on an occurrence of `"@John"` followed by a word character — the trailing
`\b` requires a non-word boundary after the matched pattern, so a cached
pattern that is a strict prefix of a longer name never matches inside that
name. -/
theorem c8_boundary_correctness :
    applyReplacements [⟨"@John".data, "<@1>".data⟩] "@Johnathan".data = "@Johnathan".data
    ∧ ∀ (c : Char) (rest : List Char), isWordChar c = true →
        matchAt "@John".data ("@John".data ++ c :: rest) = false := by
  constructor
  · decide
  · intro c rest h
    show (true != isWordChar c) = false
    rw [h]
    rfl

theorem c8_boundary_correctness_witness :
    isWordChar 'a' = true
    ∧ matchAt "@John".data ("@John".data ++ 'a' :: "than".data) = false :=
  ⟨by decide, c8_boundary_correctness.2 'a' "than".data (by decide)⟩

/-! ## Directive grammar `[[SEND:<target>:<body>]]`

Model of the command regex of events.rs line 329:
`(?s)\[\[SEND:\s*(.+?)\s*:\s*(.*?)\]\]` under the crate's leftmost-first
(Perl-style) match semantics: alternatives are explored with greedy `\s*`
preferring longer runs and lazy `(.+?)` / `(.*?)` preferring shorter ones,
backtracking on later failure. -/

/-- First success of `f` over a list of candidates, in preference order. -/
def firstSome {α β : Type} (f : α → Option β) : List α → Option β
  | [] => none
  | x :: xs =>
    match f x with
    | some y => some y
    | none => firstSome f xs

/-- Strip an exact literal from the head of a text. -/
def stripLit : List Char → List Char → Option (List Char)
  | [], l => some l
  | _ :: _, [] => none
  | p :: ps, c :: cs => if c = p then stripLit ps cs else none

/-- The opening literal of the directive grammar. -/
def dirLit : List Char := "[[SEND:".data

/-- Offset of the first occurrence of the closing literal `]]`. -/
def findCloser : List Char → Option Nat
  | [] => none
  | [_] => none
  | a :: b :: rest =>
    if a = ']' && b = ']' then some 0
    else (findCloser (b :: rest)).map (· + 1)

/-- One candidate of the backtracking search after the opening literal:
skip `a` whitespace characters (first `\s*`), take `t ≥ 1` target characters
(`(.+?)`), then deterministically skip the maximal whitespace run, require
`:`, skip the maximal whitespace run, and cut the body at the first `]]`
(the lazy `(.*?)` combined with the greedy `\s*`). Returns target, body and
characters consumed after the literal. -/
def tryAt (r : List Char) (a t : Nat) : Option (List Char × List Char × Nat) :=
  let r1 := r.drop a
  let target := r1.take t
  let r2 := r1.drop t
  let b := wsLen r2
  match r2.drop b with
  | ':' :: r4 =>
    let c := wsLen r4
    let r5 := r4.drop c
    match findCloser r5 with
    | some m => some (target, r5.take m, a + t + b + 1 + c + m + 2)
    | none => none
  | _ => none

/-- Backtracking order of the engine after the opening literal: the greedy
leading `\s*` prefers longer runs (`a` descending), the lazy `(.+?)` prefers
shorter targets (`t` ascending); the first combination whose continuation
succeeds wins. -/
def matchAfterLit (r : List Char) : Option (List Char × List Char × Nat) :=
  firstSome
    (fun a => firstSome (fun tp => tryAt r a (tp + 1)) (List.range (r.length - a)))
    ((List.range (wsLen r + 1)).reverse)

/-- Match the full directive regex at the head of `l`, returning target
capture, body capture and total matched length. -/
def matchDirectiveAt (l : List Char) : Option (List Char × List Char × Nat) :=
  match stripLit dirLit l with
  | none => none
  | some r => (matchAfterLit r).map (fun x => (x.1, x.2.1, 7 + x.2.2))

/-- A parsed directive: span (start offset and length in the completion
text) plus the trimmed-by-regex target and body captures (`Directive` of the
spec's data model, produced by `captures_iter` in events.rs 333-338). -/
structure Directive where
  start : Nat
  len : Nat
  target : List Char
  body : List Char
deriving DecidableEq, Repr

/-- `captures_iter` scan: try each position left to right; after a match,
resume immediately after its span (non-overlapping matches). While
`skip > 0` the scanner is inside the previous match's span. -/
def scanDir : List Char → Nat → Nat → List Directive
  | [], _, _ => []
  | _ :: rest, pos, Nat.succ skip => scanDir rest (pos + 1) skip
  | c :: rest, pos, 0 =>
    match matchDirectiveAt (c :: rest) with
    | some (t, b, len) => ⟨pos, len, t, b⟩ :: scanDir rest (pos + 1) (len - 1)
    | none => scanDir rest (pos + 1) 0

/-- All directive matches of a completion text (events.rs 333-338). -/
def extractDirectives (text : List Char) : List Directive :=
  scanDir text 0 0

/-- `String::replace_range(start..start+len, "")`. -/
def removeRange (start len : Nat) (text : List Char) : List Char :=
  text.take start ++ text.drop (start + len)

/-- Removal of all directive spans from the completion text: the execution
loop of events.rs 341-499 walks the collected matches in reverse order and
removes each span from the evolving text. -/
def stripDirectives (text : List Char) : List Char :=
  (extractDirectives text).reverse.foldl (fun acc d => removeRange d.start d.len acc) text

theorem scanDir_eq_nil_of_not_containsSub :
    ∀ (text : List Char) (pos : Nat),
      containsSub dirLit text = false → scanDir text pos 0 = [] := by
  intro text
  induction text with
  | nil => intro pos _; rfl
  | cons c rest ih =>
    intro pos h
    simp only [containsSub, Bool.or_eq_false_iff] at h
    have hpre : dirLit.isPrefixOf (c :: rest) = false := h.1
    have hmd : matchDirectiveAt (c :: rest) = none := by
      unfold matchDirectiveAt
      cases hs : stripLit dirLit (c :: rest) with
      | none => rfl
      | some r =>
        exfalso
        have : dirLit.isPrefixOf (c :: rest) = true := by
          have : ∀ (p l : List Char) (r' : List Char),
              stripLit p l = some r' → p.isPrefixOf l = true := by
            intro p
            induction p with
            | nil => intro l r' _; simp [List.isPrefixOf]
            | cons q qs ihp =>
              intro l r' hst
              cases l with
              | nil => simp [stripLit] at hst
              | cons x xs =>
                simp only [stripLit] at hst
                by_cases hx : x = q
                · simp only [if_pos hx] at hst
                  simp [List.isPrefixOf, hx, ihp xs r' hst]
                · simp [if_neg hx] at hst
          exact this dirLit (c :: rest) r hs
        simp [this] at hpre
    simp only [scanDir, hmd]
    exact ih (pos + 1) h.2

/-- C2 counterexample: in the completion
`"[[SEND[[SEND:x:y]]:a:b]]"` the only directive match is the inner
`[[SEND:x:y]]`; removing its span splices the surrounding fragments into the
fresh directive `[[SEND:a:b]]`, so re-running extraction on the stripped
text finds one directive, not zero. -/
theorem c2_strip_not_idempotent_counterexample :
    extractDirectives (stripDirectives "[[SEND[[SEND:x:y]]:a:b]]".data) ≠ []
    ∧ (extractDirectives (stripDirectives "[[SEND[[SEND:x:y]]:a:b]]".data)).length = 1 := by
  constructor
  · decide
  · decide

/-- C2 (amended): re-running directive extraction on the stripped text finds
zero directives provided the stripped text no longer contains the opening
literal `[[SEND:` — span removal can splice the surrounding fragments into a
new directive, so the unconditional claim fails. -/
theorem c2_strip_idempotent_of_no_lit (text : List Char)
    (h : containsSub dirLit (stripDirectives text) = false) :
    extractDirectives (stripDirectives text) = [] :=
  scanDir_eq_nil_of_not_containsSub (stripDirectives text) 0 h

theorem c2_strip_idempotent_witness :
    containsSub dirLit (stripDirectives "ok [[SEND:general:hi]] done".data) = false
    ∧ extractDirectives (stripDirectives "ok [[SEND:general:hi]] done".data) = [] :=
  ⟨by decide, c2_strip_idempotent_of_no_lit "ok [[SEND:general:hi]] done".data (by decide)⟩

/-! ## Directive execution (events.rs 340-499) -/

/-- `str::trim` (whitespace stripped from both ends). -/
def trimChars (l : List Char) : List Char :=
  ((l.dropWhile isSpaceChar).reverse.dropWhile isSpaceChar).reverse

/-- Decimal digits to a number (`str::parse::<u64>` on a digit string). -/
def digitsToNat (l : List Char) : Nat :=
  l.foldl (fun n c => n * 10 + (c.toNat - '0'.toNat)) 0

/-- The id regex of events.rs 346: `^<#(\d+)>$|^(\d+)$` — either a channel
mention token or a bare numeric id, matched against the whole target. -/
def parseTargetId (l : List Char) : Option Nat :=
  match l with
  | '<' :: '#' :: rest =>
    let digits := rest.takeWhile Char.isDigit
    if digits.isEmpty = false && rest = digits ++ ['>'] then some (digitsToNat digits)
    else none
  | _ =>
    if l.isEmpty = false && l.all Char.isDigit then some (digitsToNat l)
    else none

/-- ASCII lowercase of one character (`u8::to_ascii_lowercase`). -/
def asciiLowerChar (c : Char) : Char :=
  if 'A' ≤ c && c ≤ 'Z' then Char.ofNat (c.toNat + 32) else c

/-- `str::eq_ignore_ascii_case`. -/
def eqIgnoreAsciiCase (a b : List Char) : Bool :=
  a.map asciiLowerChar == b.map asciiLowerChar

/-- Case-insensitive channel-name resolution against the live channel
listing (events.rs 361-371), first hit in listing order wins. -/
def lookupChannel (chans : List (Nat × List Char)) (name : List Char) : Option Nat :=
  match chans with
  | [] => none
  | (cid, nm) :: rest =>
    if eqIgnoreAsciiCase nm name then some cid else lookupChannel rest name

/-- Per-guild environment of one pipeline run: the live channel listing,
the guild's mention cache entry if present (already sorted at build time),
and the raw local fallback entries (mentioned users + author + roles +
channels) gathered when the cache is absent (events.rs 400-456). -/
structure ExecEnv where
  channels : List (Nat × List Char)
  cached : Option (List Replacement)
  fallbackRaw : List Replacement

/-- Replacement list used for body mention resolution: the cached list when
present, otherwise the locally gathered fallback sorted by descending
pattern length (events.rs 400-456). -/
def effReplacements (env : ExecEnv) : List Replacement :=
  match env.cached with
  | some reps => reps
  | none => sortDescLen env.fallbackRaw

/-- The outcome of executing one directive: the trimmed target reference,
the resolved channel (if any) and the delivered message after body mention
resolution. -/
structure SendOutcome where
  targetRef : List Char
  channelId : Option Nat
  message : List Char
deriving DecidableEq, Repr

/-- Execution of a single directive (events.rs 341-495): trim the target,
resolve it as an explicit id or else by channel-name lookup, and resolve
mentions in the body when it contains `@`. -/
def execOne (env : ExecEnv) (d : Directive) : SendOutcome :=
  let tref := trimChars d.target
  let cid :=
    match parseTargetId tref with
    | some n => some n
    | none => lookupChannel env.channels (tref.dropWhile (· == '#'))
  let msg :=
    if d.body.contains '@' then applyReplacements (effReplacements env) d.body
    else d.body
  ⟨tref, cid, msg⟩

/-- The directive execution loop (events.rs 341-499): iterate the collected
matches in reverse textual order, recording each outcome and removing each
span from the evolving completion text. -/
def runDirectives (env : ExecEnv) (content : List Char) : List SendOutcome × List Char :=
  (extractDirectives content).reverse.foldl
    (fun st d => (st.1 ++ [execOne env d], removeRange d.start d.len st.2))
    ([], content)

theorem runDirectives_fold_fst (env : ExecEnv) :
    ∀ (ds : List Directive) (acc : List SendOutcome) (c : List Char),
      (ds.foldl
        (fun st d => (st.1 ++ [execOne env d], removeRange d.start d.len st.2))
        (acc, c)).1 = acc ++ ds.map (execOne env) := by
  intro ds
  induction ds with
  | nil => intro acc c; simp
  | cons d rest ih =>
    intro acc c
    simp only [List.foldl_cons, List.map_cons]
    rw [ih]
    simp

/-- The two-channel guild of the spec's reverse-order example. -/
def envAB : ExecEnv := ⟨[(1, "A".data), (2, "B".data)], none, []⟩

/-- C3: directives execute in reverse textual order — the outcome sequence
of the execution loop is the reverse of the extraction order; in particular
for the completion `"[[SEND:A:1]][[SEND:B:2]]"` the send targeting channel B
(id 2) executes before the send targeting channel A (id 1). -/
theorem c3_reverse_execution_order :
    (∀ (env : ExecEnv) (content : List Char),
      (runDirectives env content).1 = ((extractDirectives content).reverse).map (execOne env))
    ∧ (runDirectives envAB "[[SEND:A:1]][[SEND:B:2]]".data).1 =
        [⟨"B".data, some 2, "2".data⟩, ⟨"A".data, some 1, "1".data⟩] := by
  constructor
  · intro env content
    have h := runDirectives_fold_fst env (extractDirectives content).reverse [] content
    simp only [List.nil_append] at h
    simp only [runDirectives]
    exact h
  · decide

/-! ## Outcome reporting, final reply and persisted assistant turn
(events.rs 484-589) -/

/-- ASCII apostrophe (0x27), spelled out for the failure report literal. -/
def quoteChar : Char := Char.ofNat 39

/-- The per-directive report line pushed into `actions_taken`
(events.rs 484-495), with the external `say` call modelled as succeeding:
a resolved channel yields `Message sent to <#id>`, an unresolved target the
could-not-find line quoting the raw target reference. -/
def actionString (o : SendOutcome) : List Char :=
  match o.channelId with
  | some n => "Message sent to <#".data ++ (toString n).data ++ ">".data
  | none => "⚠️ Could not find channel ".data ++ quoteChar :: (o.targetRef ++ [quoteChar])

/-- `[T]::join(", ")`. -/
def joinSep (sep : List Char) : List (List Char) → List Char
  | [] => []
  | [x] => x
  | x :: y :: rest => x ++ sep ++ joinSep sep (y :: rest)

/-- Result of processing one completion: executed send outcomes in execution
order, their report lines, the trimmed visible reply, and the content
persisted as the assistant turn. -/
structure PipeResult where
  outcomes : List SendOutcome
  actions : List (List Char)
  finalReply : List Char
  saved : List Char
deriving DecidableEq, Repr

/-- Post-completion processing (events.rs 327-589): execute the directives
(reverse textual order) while removing their spans, apply cached mention
replacements to the remaining text when it still contains `@` or `#`, trim
it into the visible reply, and persist the reply plus — when any directive
ran — the serialized `[System Report: ...]` summary. -/
def processCompletion (env : ExecEnv) (completion : List Char) : PipeResult :=
  let r := runDirectives env completion
  let actions := r.1.map actionString
  let content1 :=
    if r.2.contains '@' || r.2.contains '#' then
      match env.cached with
      | some reps => applyReplacements reps r.2
      | none => r.2
    else r.2
  let finalReply := trimChars content1
  let saved :=
    if actions.isEmpty then finalReply
    else finalReply ++ "\n[System Report: ".data ++ joinSep ", ".data actions ++ "]".data
  ⟨r.1, actions, finalReply, saved⟩

/-! ## Trigger evaluation and player-lookup short-circuit
(events.rs 11-78) -/

/-- Channel policy row (`ChannelConfig` in db.rs). -/
structure ChannelConfig where
  channel_id : String
  guild_id : String
  is_listening : Bool
  shared_chat : Bool
  listen_udin : Bool
deriving DecidableEq, Repr

/-- `str::to_lowercase`. -/
def toLowerAll (l : List Char) : List Char := l.map Char.toLower

/-- Trigger evaluation (events.rs 23-31): process the event iff the channel
is listening, or the bot is platform-mentioned, or the secondary trigger is
enabled and the lowercased content contains the fixed keyword `din`. -/
def shouldProcess (cfg : ChannelConfig) (mentionsMe : Bool) (content : List Char) : Bool :=
  cfg.is_listening || (mentionsMe || (cfg.listen_udin && containsSub "din".data (toLowerAll content)))

/-- Case-insensitive literal strip (one branch word of the lookup regex). -/
def ciStrip : List Char → List Char → Option (List Char)
  | [], l => some l
  | _ :: _, [] => none
  | p :: ps, c :: cs => if ciEq p c then ciStrip ps cs else none

/-- Match a keyword branch — words separated by `\s*` — at the head of a
text, returning the remainder (the words all start with letters, so the
greedy whitespace skips are forced). -/
def matchWords : List (List Char) → List Char → Option (List Char)
  | [], l => some l
  | [w], l => ciStrip w l
  | w :: w2 :: ws, l =>
    match ciStrip w l with
    | none => none
    | some r => matchWords (w2 :: ws) (r.drop (wsLen r))

/-- The alternation branches of the player-lookup regex of events.rs 38:
`(?i)(?:player\s*id|siapa\s*player|cek\s*player|player|cek\s*akun|cek\s*id)\s*(\d+)`. -/
def playerKeywords : List (List (List Char)) :=
  [["player".data, "id".data], ["siapa".data, "player".data],
   ["cek".data, "player".data], ["player".data],
   ["cek".data, "akun".data], ["cek".data, "id".data]]

/-- Does some branch of the player-lookup regex, followed by `\s*` and a
digit, match at the head of the text? -/
def playerAt (l : List Char) : Bool :=
  playerKeywords.any (fun ws =>
    match matchWords ws l with
    | none => false
    | some r =>
      match r.drop (wsLen r) with
      | c :: _ => c.isDigit
      | [] => false)

/-- The player-lookup short-circuit fires iff the regex matches somewhere in
the raw content (events.rs 38-41). -/
def playerLookupTriggers : List Char → Bool
  | [] => false
  | c :: rest => playerAt (c :: rest) || playerLookupTriggers rest

/-! ## The message pipeline (events.rs event_handler) -/

/-- The inbound message event fields the pipeline inspects. -/
structure MsgEvent where
  authorIsSelf : Bool
  mentionsMe : Bool
  content : List Char
  authorName : List Char

/-- Observable effects of one `event_handler` run: the attributed user turn
persisted (if any), whether the completion service was called, the persisted
assistant turn (if any), the executed sends, and whether the player-lookup
short-circuit handled the event. -/
structure HandlerResult where
  userSave : Option (List Char)
  aiCalled : Bool
  assistantSave : Option (List Char)
  sends : List SendOutcome
  playerHandled : Bool
deriving DecidableEq, Repr

/-- The message pipeline (events.rs 11-589) for a guild message without
attachments, with the completion service returning `completion`: ignore own
messages, evaluate the trigger, short-circuit to player lookup, otherwise
persist the attributed user turn, call the completion service once and run
the post-completion processing. -/
def handleMessage (cfg : ChannelConfig) (env : ExecEnv) (msg : MsgEvent)
    (completion : List Char) : HandlerResult :=
  if msg.authorIsSelf then ⟨none, false, none, [], false⟩
  else if !(shouldProcess cfg msg.mentionsMe msg.content) then ⟨none, false, none, [], false⟩
  else if playerLookupTriggers msg.content then ⟨none, false, none, [], true⟩
  else
    let attributed := "[".data ++ msg.authorName ++ "]: ".data ++ msg.content
    let pr := processCompletion env completion
    ⟨some attributed, true, some pr.saved, pr.outcomes, false⟩

/-- C7: when the channel is not listening, the bot is not mentioned and the
secondary trigger does not fire, the handler returns without persisting any
turn, without calling the completion service and without sending anything. -/
theorem c7_no_trigger_no_effects (cfg : ChannelConfig) (env : ExecEnv)
    (msg : MsgEvent) (completion : List Char)
    (h1 : cfg.is_listening = false) (h2 : msg.mentionsMe = false)
    (h3 : cfg.listen_udin = false ∨ containsSub "din".data (toLowerAll msg.content) = false) :
    handleMessage cfg env msg completion = ⟨none, false, none, [], false⟩ := by
  have hsp : shouldProcess cfg msg.mentionsMe msg.content = false := by
    rcases h3 with h3 | h3 <;> simp [shouldProcess, h1, h2, h3]
  by_cases hself : msg.authorIsSelf
  · simp [handleMessage, hself]
  · simp [handleMessage, hself, hsp]

theorem c7_no_trigger_no_effects_witness :
    (⟨"c1", "g1", false, false, false⟩ : ChannelConfig).is_listening = false
    ∧ handleMessage ⟨"c1", "g1", false, false, false⟩ ⟨[], none, []⟩
        ⟨false, false, "hello there".data, "Alice".data⟩ "hi".data
        = ⟨none, false, none, [], false⟩ :=
  ⟨rfl, c7_no_trigger_no_effects ⟨"c1", "g1", false, false, false⟩ ⟨[], none, []⟩
    ⟨false, false, "hello there".data, "Alice".data⟩ "hi".data rfl rfl (Or.inl rfl)⟩

/-! ## The end-to-end scenario of the spec (C5) -/

/-- A listening-enabled channel. -/
def cfg5 : ChannelConfig := ⟨"chan", "guild", true, false, false⟩

/-- Guild with one channel `#general` of id 123 and no mention cache. -/
def env5 : ExecEnv := ⟨[(123, "general".data)], none, []⟩

/-- The inbound `"hello"` message. -/
def msg5 : MsgEvent := ⟨false, false, "hello".data, "Alice".data⟩

/-- The completion returned by the AI gateway in the scenario. -/
def comp5 : List Char := "hi [[SEND:#general:ping]]".data

/-- C5 counterexample: in the end-to-end scenario the persisted assistant
turn is not `"hi\n[System Report: Message sent to #general]"` — the report
names the target by its channel mention token, not by the literal name. -/
theorem c5_saved_turn_counterexample :
    (handleMessage cfg5 env5 msg5 comp5).assistantSave
      ≠ some "hi\n[System Report: Message sent to #general]".data := by
  decide

/-- C5 (amended): in the end-to-end scenario the user turn is persisted with
author attribution, the completion service is called, `"ping"` is sent to
the resolved `#general` channel (id 123), the visible reply is `"hi"`, and
the persisted assistant turn equals
`"hi\n[System Report: Message sent to <#123>]"` — the directive-outcome
summary renders the target as the mention token `<#123>` of the resolved
channel rather than the literal `#general`. -/
theorem c5_saved_turn_amended :
    handleMessage cfg5 env5 msg5 comp5 =
      ⟨some "[Alice]: hello".data, true,
       some "hi\n[System Report: Message sent to <#123>]".data,
       [⟨"#general".data, some 123, "ping".data⟩], false⟩
    ∧ (processCompletion env5 comp5).finalReply = "hi".data := by
  constructor
  · decide
  · decide

/-! ## Reply chunking (events.rs 526-553)

The chunk loop works on byte indices in Rust; over ASCII texts char
positions coincide with byte positions, which the chunk-splitting model uses.
The byte-level slicing precondition is modelled separately below via
`Char.utf8Size`. -/

/-- `str::rfind(['\n', ' '])`: index of the last newline or space. -/
def rfindSpaceNl : List Char → Option Nat
  | [] => none
  | c :: rest =>
    match rfindSpaceNl rest with
    | some i => some (i + 1)
    | none => if c = '\n' || c = ' ' then some 0 else none

/-- The split index chosen by one iteration of the chunk loop
(events.rs 532-537): above the rich-block ceiling 4000, the last newline or
space in the first 4000 characters (falling back to 4000); otherwise the
whole remaining text. -/
def chunkSplitIdx (remaining : List Char) : Nat :=
  if remaining.length > 4000 then
    match rfindSpaceNl (remaining.take 4000) with
    | some i => i
    | none => 4000
  else remaining.length

/-- One iteration of the chunk loop: `split_at(split_idx)` yields the chunk
sent as an embed and the new remaining text. -/
def chunkStep (remaining : List Char) : List Char × List Char :=
  (remaining.take (chunkSplitIdx remaining), remaining.drop (chunkSplitIdx remaining))

/-- The chunk loop with explicit fuel: `some chunks` iff the loop exhausts
the text within `fuel` iterations, `none` if it is still running. -/
def chunksFuel : Nat → List Char → Option (List (List Char))
  | 0, _ => none
  | fuel + 1, remaining =>
    if remaining.isEmpty then some []
    else
      match chunksFuel fuel (chunkStep remaining).2 with
      | some rest => some ((chunkStep remaining).1 :: rest)
      | none => none

theorem rfindSpaceNl_lt_length :
    ∀ (l : List Char) (i : Nat), rfindSpaceNl l = some i → i < l.length := by
  intro l
  induction l with
  | nil => intro i h; simp [rfindSpaceNl] at h
  | cons c rest ih =>
    intro i h
    unfold rfindSpaceNl at h
    split at h
    · rename_i j hr
      injection h with h
      have := ih j hr
      simp only [List.length_cons]
      omega
    · split at h
      · injection h with h
        simp only [List.length_cons]
        omega
      · exact absurd h (by simp)

theorem rfindSpaceNl_append_of_some (l1 : List Char) {l2 : List Char} {i : Nat}
    (h : rfindSpaceNl l2 = some i) :
    rfindSpaceNl (l1 ++ l2) = some (l1.length + i) := by
  induction l1 with
  | nil => simpa using h
  | cons c rest ih =>
    show (match rfindSpaceNl (rest ++ l2) with
      | some i => some (i + 1)
      | none => if c = '\n' || c = ' ' then some 0 else none) = some ((c :: rest).length + i)
    rw [ih]
    simp only [Option.some.injEq, List.length_cons]
    omega

theorem rfindSpaceNl_replicate_none (n : Nat) {c : Char}
    (hc : (c = '\n' || c = ' ') = false) :
    rfindSpaceNl (List.replicate n c) = none := by
  induction n with
  | zero => rfl
  | succ k ih => simp [List.replicate_succ, rfindSpaceNl, ih, hc]

theorem rfindSpaceNl_cons_space_none {l : List Char} (h : rfindSpaceNl l = none) :
    rfindSpaceNl (' ' :: l) = some 0 := by
  show (match rfindSpaceNl l with
    | some i => some (i + 1)
    | none => if ' ' = '\n' || ' ' = ' ' then some 0 else none) = some 0
  rw [h]
  decide

theorem chunkSplitIdx_length_le (t : List Char) :
    (t.take (chunkSplitIdx t)).length ≤ 4000 := by
  by_cases h : t.length > 4000
  · have h4 : (t.take 4000).length = 4000 := by
      simp [List.length_take]
      omega
    simp only [chunkSplitIdx, if_pos h]
    cases hr : rfindSpaceNl (t.take 4000) with
    | some i =>
      have := rfindSpaceNl_lt_length _ _ hr
      rw [h4] at this
      simp [List.length_take]
      omega
    | none =>
      simp [List.length_take]
  · simp only [chunkSplitIdx, if_neg h]
    simp [List.length_take]
    omega

/-- C4 (amended): whenever the chunk loop terminates (some fuel suffices),
the ordered concatenation of the emitted chunks reconstructs the original
text and no chunk exceeds the rich-block ceiling 4000; the unconditional
claim fails because the loop need not terminate (see the counterexample). -/
theorem c4_chunking_complete_of_terminating :
    ∀ (fuel : Nat) (text : List Char) (chunks : List (List Char)),
      chunksFuel fuel text = some chunks →
      chunks.flatten = text ∧ ∀ ch ∈ chunks, ch.length ≤ 4000 := by
  intro fuel
  induction fuel with
  | zero => intro text chunks h; simp [chunksFuel] at h
  | succ f ih =>
    intro text chunks h
    simp only [chunksFuel] at h
    by_cases he : text.isEmpty
    · rw [if_pos he] at h
      injection h with h
      subst h
      have htxt : text = [] := List.isEmpty_iff.mp he
      subst htxt
      exact ⟨rfl, fun ch hch => absurd hch (List.not_mem_nil ch)⟩
    · rw [if_neg he] at h
      cases hr : chunksFuel f (chunkStep text).2 with
      | none => rw [hr] at h; exact absurd h (by simp)
      | some rest =>
        rw [hr] at h
        injection h with h
        subst h
        rcases ih _ _ hr with ⟨hjoin, hlen⟩
        constructor
        · rw [List.flatten_cons, hjoin]
          show text.take (chunkSplitIdx text) ++ text.drop (chunkSplitIdx text) = text
          exact List.take_append_drop _ _
        · intro ch hch
          rcases List.mem_cons.mp hch with rfl | hch
          · exact chunkSplitIdx_length_le text
          · exact hlen ch hch

theorem c4_chunking_complete_of_terminating_witness :
    chunksFuel 2 (List.replicate 2500 'a') = some [List.replicate 2500 'a']
    ∧ (List.replicate 2500 'a' : List Char).length > 2000
    ∧ [List.replicate 2500 'a'].flatten = List.replicate 2500 'a'
    ∧ ∀ ch ∈ [List.replicate 2500 'a'], ch.length ≤ 4000 := by
  have hlen : (List.replicate 2500 'a' : List Char).length = 2500 :=
    List.length_replicate _ _
  have h : chunksFuel 2 (List.replicate 2500 'a') = some [List.replicate 2500 'a'] := by
    have hidx : chunkSplitIdx (List.replicate 2500 'a') = 2500 := by
      rw [chunkSplitIdx, hlen]
      norm_num
    have hstep : chunkStep (List.replicate 2500 'a') = (List.replicate 2500 'a', []) := by
      rw [chunkStep, hidx, List.take_replicate, List.drop_replicate]
      norm_num
    have hne : (List.replicate 2500 'a' : List Char).isEmpty = false := by
      rw [List.isEmpty_replicate]
      norm_num
    rw [chunksFuel, hne, hstep]
    rw [if_neg (by decide : ¬(false = true))]
    rfl
  refine ⟨h, by omega, ?_, ?_⟩
  · exact (c4_chunking_complete_of_terminating 2 _ _ h).1
  · exact (c4_chunking_complete_of_terminating 2 _ _ h).2

/-- The non-terminating reply text: 3999 non-space characters, a space,
then 4001 non-space characters (8001 characters in all). -/
def stuckText (c d : Char) : List Char :=
  List.replicate 3999 c ++ ' ' :: List.replicate 4001 d

/-- The remaining text after the first cut of `stuckText`. -/
def stuckRest (d : Char) : List Char := ' ' :: List.replicate 4001 d

theorem length_replicate_3999 (c : Char) : (List.replicate 3999 c).length = 3999 :=
  List.length_replicate _ _

theorem stuckText_length (c d : Char) : (stuckText c d).length = 8001 := by
  rw [stuckText, List.length_append, List.length_cons, List.length_replicate,
    List.length_replicate]

theorem stuckRest_length (d : Char) : (stuckRest d).length = 4002 := by
  rw [stuckRest, List.length_cons, List.length_replicate]

theorem chunkStep_stuckText (c d : Char) :
    chunkStep (stuckText c d) = (List.replicate 3999 c, stuckRest d) := by
  have hidx : chunkSplitIdx (stuckText c d) = 3999 := by
    have htake : (stuckText c d).take 4000 = List.replicate 3999 c ++ [' '] := by
      rw [stuckText]
      rw [show (4000 : Nat) = (List.replicate 3999 c).length + 1 by
        rw [length_replicate_3999]]
      rw [List.take_append]
      rfl
    have hr : rfindSpaceNl ((stuckText c d).take 4000) = some 3999 := by
      rw [htake]
      have h0 : rfindSpaceNl [' '] = some 0 := rfl
      have happ := rfindSpaceNl_append_of_some (List.replicate 3999 c) h0
      rw [length_replicate_3999, Nat.add_zero] at happ
      exact happ
    rw [chunkSplitIdx, stuckText_length,
      if_pos (by norm_num : (8001 : Nat) > 4000), hr]
  have htake : (stuckText c d).take 3999 = List.replicate 3999 c := by
    rw [stuckText]
    exact List.take_left' (length_replicate_3999 c)
  have hdrop : (stuckText c d).drop 3999 = stuckRest d := by
    rw [stuckText, stuckRest]
    exact List.drop_left' (length_replicate_3999 c)
  rw [chunkStep, hidx, htake, hdrop]

theorem chunkSplitIdx_stuckRest (d : Char) (hd : (d = '\n' || d = ' ') = false) :
    chunkSplitIdx (stuckRest d) = 0 := by
  have htake : (stuckRest d).take 4000 = ' ' :: List.replicate 3999 d := by
    rw [stuckRest, show (4000 : Nat) = 3999 + 1 from rfl, List.take_succ_cons,
      List.take_replicate, show min (3999 : Nat) 4001 = 3999 from rfl]
  have hr : rfindSpaceNl ((stuckRest d).take 4000) = some 0 := by
    rw [htake]
    exact rfindSpaceNl_cons_space_none (rfindSpaceNl_replicate_none 3999 hd)
  rw [chunkSplitIdx, stuckRest_length,
    if_pos (by norm_num : (4002 : Nat) > 4000), hr]

theorem chunkStep_stuckRest (d : Char) (hd : (d = '\n' || d = ' ') = false) :
    chunkStep (stuckRest d) = ([], stuckRest d) := by
  rw [chunkStep, chunkSplitIdx_stuckRest d hd, List.take_zero, List.drop_zero]

theorem chunksFuel_stuckRest_none (d : Char) (hd : (d = '\n' || d = ' ') = false) :
    ∀ fuel, chunksFuel fuel (stuckRest d) = none := by
  intro fuel
  induction fuel with
  | zero => rfl
  | succ f ih =>
    have hne : (stuckRest d).isEmpty = false := by rw [stuckRest]; rfl
    rw [chunksFuel, hne, if_neg (by decide : ¬(false = true))]
    simp only [chunkStep_stuckRest d hd]
    rw [ih]

/-- C4 counterexample: for the 8001-character reply `stuckText 'a' 'b'`
(which exceeds the plain-message ceiling 2000) the first cut leaves
`stuckRest 'b'`, on which the loop makes no further progress — the emitted
chunk is empty and the remaining text unchanged — so the loop never finishes
(1000 iterations do not exhaust it) and the emitted chunks cannot
concatenate to the original text. -/
theorem c4_chunking_counterexample :
    (stuckText 'a' 'b').length > 2000
    ∧ chunkStep (stuckText 'a' 'b') = (List.replicate 3999 'a', stuckRest 'b')
    ∧ chunkStep (stuckRest 'b') = ([], stuckRest 'b')
    ∧ stuckRest 'b' ≠ []
    ∧ chunksFuel 1000 (stuckText 'a' 'b') = none := by
  refine ⟨by rw [stuckText_length]; omega, chunkStep_stuckText 'a' 'b',
    chunkStep_stuckRest 'b' (by decide), by rw [stuckRest]; exact List.cons_ne_nil _ _, ?_⟩
  have hne : (stuckText 'a' 'b').isEmpty = false := by rw [stuckText]; rfl
  show chunksFuel (999 + 1) (stuckText 'a' 'b') = none
  rw [chunksFuel, hne, if_neg (by decide : ¬(false = true))]
  simp only [chunkStep_stuckText 'a' 'b']
  rw [chunksFuel_stuckRest_none 'b' (by decide) 999]

/-- C9: the chunk loop does not always make progress — for the reply
`stuckText 'x' 'y'` the second iteration's split index is 0, the emitted
chunk is empty and the remaining text is unchanged, so the loop never
terminates. -/
theorem c9_chunk_loop_stuck :
    (stuckText 'x' 'y').length > 2000
    ∧ chunkStep (stuckText 'x' 'y') = (List.replicate 3999 'x', stuckRest 'y')
    ∧ chunkSplitIdx (stuckRest 'y') = 0
    ∧ (chunkStep (stuckRest 'y')).1 = []
    ∧ (chunkStep (stuckRest 'y')).2 = stuckRest 'y'
    ∧ stuckRest 'y' ≠ [] := by
  have hd : (('y' : Char) = '\n' || ('y' : Char) = ' ') = false := by decide
  refine ⟨by rw [stuckText_length]; omega, chunkStep_stuckText 'x' 'y',
    chunkSplitIdx_stuckRest 'y' hd, ?_, ?_,
    by rw [stuckRest]; exact List.cons_ne_nil _ _⟩
  · simp only [chunkStep_stuckRest 'y' hd]
  · simp only [chunkStep_stuckRest 'y' hd]

/-! ## Byte-level slicing precondition (events.rs 531-539, C10) -/

/-- UTF-8 byte length of a text. -/
def utf8Len (l : List Char) : Nat := (l.map Char.utf8Size).sum

/-- Is byte offset `n` a UTF-8 character boundary of the text? -/
def isCharBoundary : List Char → Nat → Bool
  | _, 0 => true
  | [], _ + 1 => false
  | c :: rest, n + 1 =>
    if c.utf8Size ≤ n + 1 then isCharBoundary rest (n + 1 - c.utf8Size) else false

/-- Safety precondition of the byte slice `remaining[..4000]` in the chunk
loop: it is evaluated only when the remaining text is longer than 4000
bytes, and then byte offset 4000 must be a character boundary or the slice
panics. -/
def chunkSliceOk (remaining : List Char) : Prop :=
  utf8Len remaining ≤ 4000 ∨ isCharBoundary remaining 4000 = true

theorem isCharBoundary_replicate_a (n : Nat) :
    ∀ (l : List Char) (m : Nat),
      isCharBoundary (List.replicate n 'a' ++ l) (n + m) = isCharBoundary l m := by
  induction n with
  | zero => intro l m; simp
  | succ k ih =>
    intro l m
    have harith : k + 1 + m = (k + m) + 1 := by omega
    rw [harith, List.replicate_succ, List.cons_append]
    have hsz : ('a' : Char).utf8Size = 1 := by decide
    simp only [isCharBoundary, hsz]
    have hle : 1 ≤ k + m + 1 := by omega
    rw [if_pos hle]
    have : k + m + 1 - 1 = k + m := by omega
    rw [this, ih l m]

theorem utf8Len_replicate_a (n : Nat) : utf8Len (List.replicate n 'a') = n := by
  induction n with
  | zero => rfl
  | succ k ih =>
    rw [List.replicate_succ, utf8Len, List.map_cons, List.sum_cons]
    rw [utf8Len] at ih
    rw [ih, show ('a' : Char).utf8Size = 1 from by decide]
    omega

/-- The multi-byte reply text: 3999 one-byte characters followed by the
two-byte character `é` — 4001 bytes, with no boundary at byte 4000. -/
def multiByteText : List Char := List.replicate 3999 'a' ++ ['é']

/-- C10: the chunk-splitting computation can hit a non-boundary byte offset:
`multiByteText` is a trimmed reply of 4001 bytes (> 2000, so the chunk loop
runs; > 4000, so the byte slice at offset 4000 is evaluated) yet byte offset
4000 is not a UTF-8 character boundary — the slice precondition
`chunkSliceOk` fails and the Rust slice `remaining[..4000]` panics. -/
theorem c10_slice_not_on_boundary :
    utf8Len multiByteText = 4001
    ∧ utf8Len multiByteText > 2000
    ∧ isCharBoundary multiByteText 4000 = false
    ∧ ¬ chunkSliceOk multiByteText := by
  have hlen : utf8Len multiByteText = 4001 := by
    have h1 := utf8Len_replicate_a 3999
    have h2 : utf8Len ['é'] = 2 := by decide
    rw [multiByteText, utf8Len, List.map_append, List.sum_append]
    rw [utf8Len] at h1 h2
    rw [h1, h2]
  have hbd : isCharBoundary multiByteText 4000 = false := by
    have h := isCharBoundary_replicate_a 3999 ['é'] 1
    have : isCharBoundary ['é'] 1 = false := by decide
    rw [show (4000 : Nat) = 3999 + 1 from rfl]
    rw [multiByteText]
    rw [h, this]
  refine ⟨hlen, by omega, hbd, ?_⟩
  intro hok
  rcases hok with hle | hb
  · omega
  · rw [hbd] at hb
    exact Bool.false_ne_true hb

/-! ## Policy store defaults (db.rs, C6) -/

/-- A stored guild row (`guild_configs` table): `image_model` and
`system_prompt` columns are nullable. -/
structure GuildRow where
  chat_model : String
  image_model : Option String
  system_prompt : Option String

/-- `GuildConfig` of db.rs. -/
structure GuildConfig where
  guild_id : String
  chat_model : String
  image_model : String
  system_prompt : String
deriving DecidableEq, Repr

/-- `get_guild_config` (db.rs 77-98): the query result is `.optional()`, a
missing row synthesizes the documented defaults; a present row defaults its
nullable columns (`unwrap_or_default`, `unwrap_or_else`). The connection is
modelled as always available — the only failure source is outside the
claim. -/
def get_guild_config (db : List (String × GuildRow)) (guild_id : String) :
    Except String GuildConfig :=
  match db.lookup guild_id with
  | some row =>
    .ok ⟨guild_id, row.chat_model, row.image_model.getD "",
      row.system_prompt.getD "You are a helpful assistant."⟩
  | none =>
    .ok ⟨guild_id, "gemini-2.5-flash", "gemini-3-pro-image", "You are a helpful assistant."⟩

/-- A stored channel row (`channel_configs` table): `listen_udin` may be
absent pre-migration (`row.get(4).unwrap_or(false)`). -/
structure ChannelRow where
  guild_id : String
  is_listening : Bool
  shared_chat : Bool
  listen_udin : Option Bool

/-- `get_channel_config` (db.rs 117-146): `.optional()` query, defaults on a
missing row. -/
def get_channel_config (db : List (String × ChannelRow)) (channel_id : String) :
    Except String ChannelConfig :=
  match db.lookup channel_id with
  | some row =>
    .ok ⟨channel_id, row.guild_id, row.is_listening, row.shared_chat,
      row.listen_udin.getD false⟩
  | none => .ok ⟨channel_id, "", false, false, false⟩

/-- C6: for a guild id and a channel id with no stored configuration row,
the policy reads return `Ok` with the documented defaults (guild: chat model
`gemini-2.5-flash`, image model `gemini-3-pro-image`, prompt `You are a
helpful assistant.`; channel: all flags false), never an error caused by the
missing row. -/
theorem c6_defaults_on_miss (gdb : List (String × GuildRow))
    (cdb : List (String × ChannelRow)) (gid cid : String)
    (hg : gdb.lookup gid = none) (hc : cdb.lookup cid = none) :
    get_guild_config gdb gid =
      .ok ⟨gid, "gemini-2.5-flash", "gemini-3-pro-image", "You are a helpful assistant."⟩
    ∧ get_channel_config cdb cid = .ok ⟨cid, "", false, false, false⟩ := by
  constructor
  · unfold get_guild_config
    rw [hg]
  · unfold get_channel_config
    rw [hc]

theorem c6_defaults_on_miss_witness :
    (([] : List (String × GuildRow)).lookup "g" = none)
    ∧ get_guild_config [] "g" =
        .ok ⟨"g", "gemini-2.5-flash", "gemini-3-pro-image", "You are a helpful assistant."⟩
    ∧ get_channel_config [] "c" = .ok ⟨"c", "", false, false, false⟩ :=
  ⟨rfl, (c6_defaults_on_miss [] [] "g" "c" rfl rfl).1,
    (c6_defaults_on_miss [] [] "g" "c" rfl rfl).2⟩

end Antigravity
